import Mathlib

/-!
Shallow embedding of the conditions package of reconcile-kit/api
(src/conditions/conditions.go).

Machine time is modelled as a `Nat` parameter passed to every mutating
operation; it stands for the value of time.Now().UTC() observed at the
moment of the call.  The Go slice sort (sort.Slice with the comparator
lexicographicLess) is modelled by insertion sort over the non-strict
relation condLe induced by the comparator; a slice returned by
sort.Slice is exactly a permutation of its input that is sorted with
respect to condLe, and for condition sets with pairwise distinct types
that sorted permutation is unique, so the choice of algorithm is
immaterial.  The accessor interface (GetConditions / SetConditions) is
modelled twice: as pure state transformers on the current condition
slice, and as straight-line accessor programs (AccProg) whose executed
call trace is observable, for the claims about accessor side effects.
-/

namespace Conditions

/-- ConditionStatus mirrors the Go string enumeration True, False, Unknown. -/
inductive ConditionStatus where
  | True
  | False
  | Unknown
deriving DecidableEq

/-- Condition represents a single entry of the status.conditions array:
Type, Status, Reason, Message, LastTransitionTime.  The Go time.Time
value is embedded as a Nat. -/
structure Condition where
  type : String
  status : ConditionStatus
  reason : String
  message : String
  lastTransitionTime : Nat
deriving DecidableEq

/-- Lexicographic order on lists of characters by code point.  For
UTF-8 encoded strings, byte-wise order (the Go string comparison)
coincides with code-point order, so this is the Go relation. -/
def charListLt : List Char → List Char → Bool
  | _, [] => false
  | [], _ :: _ => true
  | a :: as, b :: bs =>
    if a.toNat < b.toNat then true
    else if b.toNat < a.toNat then false
    else charListLt as bs

/-- The Go comparison string(a) < string(b), byte-wise lexicographic. -/
def strLt (a b : String) : Bool := charListLt a.data b.data

/-- lexicographicLess from conditions.go: Ready always comes first, all
other conditions are compared by Type. -/
def lexicographicLess (a b : Condition) : Bool :=
  if a.type = "Ready" ∧ b.type ≠ "Ready" then true
  else if b.type = "Ready" ∧ a.type ≠ "Ready" then false
  else strLt a.type b.type

/-- condLe a b holds when the comparator does not place b strictly before
a; a slice sorted by sort.Slice with lexicographicLess is exactly a list
sorted with respect to condLe. -/
def condLe (a b : Condition) : Prop := lexicographicLess b a = false

instance : DecidableRel condLe :=
  fun a b => inferInstanceAs (Decidable (lexicographicLess b a = false))

/-- sortConditions keeps the slice ordered by the comparator
(conditions.go sortConditions). -/
def sortConditions (conds : List Condition) : List Condition :=
  List.insertionSort condLe conds

/-- get returns the first condition of the requested type, if any
(conditions.go get). -/
def get (conds : List Condition) (t : String) : Option Condition :=
  conds.find? (fun c => c.type == t)

/-- Body of the update branch of set: refresh LastTransitionTime only
when the stored Reason differs from the new one, then overwrite Status,
Reason and Message. -/
def setFields (c : Condition) (s : ConditionStatus) (reason msg : String)
    (now : Nat) : Condition :=
  { c with
    lastTransitionTime := if c.reason ≠ reason then now else c.lastTransitionTime
    status := s
    reason := reason
    message := msg }

/-- upsert: update the first condition with the given type in place, or
append a brand new entry whose LastTransitionTime is now.  This is the
body of conditions.go set before the final re-sort. -/
def upsert (conds : List Condition) (t : String) (s : ConditionStatus)
    (reason msg : String) (now : Nat) : List Condition :=
  match conds with
  | [] => [{ type := t, status := s, reason := reason, message := msg,
             lastTransitionTime := now }]
  | c :: rest =>
    if c.type = t then setFields c s reason msg now :: rest
    else c :: upsert rest t s reason msg now

/-- set creates or updates a condition, then keeps the slice sorted
(conditions.go set). -/
def set (conds : List Condition) (t : String) (s : ConditionStatus)
    (reason msg : String) (now : Nat) : List Condition :=
  sortConditions (upsert conds t s reason msg now)

/-- MarkTrue as a pure transformer of the accessor state. -/
def MarkTrue (conds : List Condition) (t : String) (now : Nat) : List Condition :=
  set conds t ConditionStatus.True "" "" now

/-- MarkFalse as a pure transformer of the accessor state. -/
def MarkFalse (conds : List Condition) (t reason msg : String) (now : Nat) :
    List Condition :=
  set conds t ConditionStatus.False reason msg now

/-- MarkUnknown as a pure transformer of the accessor state. -/
def MarkUnknown (conds : List Condition) (t reason msg : String) (now : Nat) :
    List Condition :=
  set conds t ConditionStatus.Unknown reason msg now

/-- IsTrue reports whether a condition of the given type is currently
True (false when absent, with no error channel). -/
def IsTrue (conds : List Condition) (t : String) : Bool :=
  match get conds t with
  | some c => c.status == ConditionStatus.True
  | none => false

/-- The scan loop of SyncReady: Reason and Message of the first
non-Ready condition whose status is False, in current list order. -/
def findFirstFalse (conds : List Condition) : Option (String × String) :=
  match conds with
  | [] => none
  | c :: rest =>
    if c.type = "Ready" then findFirstFalse rest
    else if c.status = ConditionStatus.False then some (c.reason, c.message)
    else findFirstFalse rest

/-- SyncReady as a pure transformer of the accessor state: Ready becomes
False with the Reason and Message of the first failing non-Ready entry,
or True with empty Reason and Message when no non-Ready entry is False. -/
def SyncReady (conds : List Condition) (now : Nat) : List Condition :=
  match findFirstFalse conds with
  | some (r, m) => set conds "Ready" ConditionStatus.False r m now
  | none => set conds "Ready" ConditionStatus.True "" "" now

/-- One public mutating call of the package. -/
inductive MarkOp where
  | markTrue (t : String)
  | markFalse (t reason msg : String)
  | markUnknown (t reason msg : String)
  | syncReady

/-- Apply one public call at the given current time. -/
def applyOp (conds : List Condition) : MarkOp → Nat → List Condition
  | MarkOp.markTrue t, now => MarkTrue conds t now
  | MarkOp.markFalse t reason msg, now => MarkFalse conds t reason msg now
  | MarkOp.markUnknown t reason msg, now => MarkUnknown conds t reason msg now
  | MarkOp.syncReady, now => SyncReady conds now

/-- Run a sequence of timed public calls from a starting accessor state. -/
def runFrom (conds : List Condition) : List (MarkOp × Nat) → List Condition
  | [] => conds
  | (op, now) :: rest => runFrom (applyOp conds op now) rest

/-- One observable interaction with a ConditionsAccessor. -/
inductive AccEvent where
  | getConditions (result : List Condition)
  | setConditions (arg : List Condition)
deriving DecidableEq

/-- A straight-line program against the ConditionsAccessor interface. -/
inductive AccProg (α : Type) where
  | ret (a : α)
  | getConds (k : List Condition → AccProg α)
  | setConds (arg : List Condition) (k : AccProg α)

/-- Run an accessor program: final accessor state, result, and the trace
of accessor calls performed, in order. -/
def runAcc {α : Type} : AccProg α → List Condition → List Condition × α × List AccEvent
  | AccProg.ret a, s => (s, a, [])
  | AccProg.getConds k, s =>
    let out := runAcc (k s) s
    (out.1, out.2.1, AccEvent.getConditions s :: out.2.2)
  | AccProg.setConds v k, _ =>
    let out := runAcc k v
    (out.1, out.2.1, AccEvent.setConditions v :: out.2.2)

/-- MarkTrue as an accessor program: one GetConditions, then one
SetConditions carrying the fully updated, fully sorted copy. -/
def MarkTrueProg (t : String) (now : Nat) : AccProg Unit :=
  AccProg.getConds fun conds =>
    AccProg.setConds (set conds t ConditionStatus.True "" "" now) (AccProg.ret ())

/-- MarkFalse as an accessor program. -/
def MarkFalseProg (t reason msg : String) (now : Nat) : AccProg Unit :=
  AccProg.getConds fun conds =>
    AccProg.setConds (set conds t ConditionStatus.False reason msg now) (AccProg.ret ())

/-- MarkUnknown as an accessor program. -/
def MarkUnknownProg (t reason msg : String) (now : Nat) : AccProg Unit :=
  AccProg.getConds fun conds =>
    AccProg.setConds (set conds t ConditionStatus.Unknown reason msg now) (AccProg.ret ())

/-- IsTrue as an accessor program: a single GetConditions and no write. -/
def IsTrueProg (t : String) : AccProg Bool :=
  AccProg.getConds fun conds => AccProg.ret (IsTrue conds t)

/-- SyncReady as an accessor program. -/
def SyncReadyProg (now : Nat) : AccProg Unit :=
  AccProg.getConds fun conds =>
    AccProg.setConds (SyncReady conds now) (AccProg.ret ())

/-- Classifier for read events. -/
def isGetEvent : AccEvent → Bool
  | AccEvent.getConditions _ => true
  | AccEvent.setConditions _ => false

/-- Classifier for write events. -/
def isSetEvent : AccEvent → Bool
  | AccEvent.getConditions _ => false
  | AccEvent.setConditions _ => true

/-- The uniqueness invariant of the data model: pairwise distinct
condition types. -/
def TypesNodup (conds : List Condition) : Prop :=
  List.Pairwise (fun a b : Condition => a.type ≠ b.type) conds

instance (conds : List Condition) : Decidable (TypesNodup conds) :=
  inferInstanceAs (Decidable (List.Pairwise _ conds))

/-! Order-theoretic facts about the character and string comparisons. -/

theorem char_eq_of_toNat_eq {a b : Char} (h : a.toNat = b.toNat) : a = b :=
  Char.eq_of_val_eq (UInt32.toNat.inj h)

theorem charListLt_irrefl : ∀ l : List Char, charListLt l l = false
  | [] => rfl
  | a :: as => by simp [charListLt, Nat.lt_irrefl, charListLt_irrefl as]

theorem charListLt_asymm {a b : List Char} (h : charListLt a b = true) :
    charListLt b a = false := by
  induction a generalizing b with
  | nil =>
    cases b with
    | nil => simp [charListLt] at h
    | cons y ys => simp [charListLt]
  | cons x xs ih =>
    cases b with
    | nil => simp [charListLt] at h
    | cons y ys =>
      by_cases h1 : x.toNat < y.toNat
      · simp [charListLt, h1, Nat.lt_asymm h1]
      · by_cases h2 : y.toNat < x.toNat
        · simp [charListLt, h1, h2] at h
        · simp [charListLt, h1, h2] at h ⊢
          exact ih h

theorem charListLt_trans {a b c : List Char} (h1 : charListLt a b = true)
    (h2 : charListLt b c = true) : charListLt a c = true := by
  induction a generalizing b c with
  | nil =>
    cases c with
    | nil => cases b <;> simp [charListLt] at h1 h2
    | cons z zs => simp [charListLt]
  | cons x xs ih =>
    cases b with
    | nil => simp [charListLt] at h1
    | cons y ys =>
      cases c with
      | nil => simp [charListLt] at h2
      | cons z zs =>
        simp only [charListLt] at h1 h2 ⊢
        by_cases hxy : x.toNat < y.toNat
        · by_cases hyz : y.toNat < z.toNat
          · simp [show x.toNat < z.toNat by omega]
          · by_cases hzy : z.toNat < y.toNat
            · simp [hyz, hzy] at h2
            · simp [show x.toNat < z.toNat by omega]
        · by_cases hyx : y.toNat < x.toNat
          · simp [hxy, hyx] at h1
          · simp [hxy, hyx] at h1
            by_cases hyz : y.toNat < z.toNat
            · simp [show x.toNat < z.toNat by omega]
            · by_cases hzy : z.toNat < y.toNat
              · simp [hyz, hzy] at h2
              · simp [hyz, hzy] at h2
                simp [show ¬ x.toNat < z.toNat by omega,
                      show ¬ z.toNat < x.toNat by omega]
                exact ih h1 h2

theorem charListLt_eq_of_not {a b : List Char} (h1 : charListLt a b = false)
    (h2 : charListLt b a = false) : a = b := by
  induction a generalizing b with
  | nil =>
    cases b with
    | nil => rfl
    | cons y ys => simp [charListLt] at h1
  | cons x xs ih =>
    cases b with
    | nil => simp [charListLt] at h2
    | cons y ys =>
      simp only [charListLt] at h1 h2
      by_cases hxy : x.toNat < y.toNat
      · simp [hxy] at h1
      · by_cases hyx : y.toNat < x.toNat
        · simp [hyx] at h2
        · simp [hxy, hyx] at h1 h2
          have hx : x = y := char_eq_of_toNat_eq (by omega)
          rw [hx, ih h1 h2]

theorem strLt_irrefl (a : String) : strLt a a = false :=
  charListLt_irrefl a.data

theorem strLt_asymm {a b : String} (h : strLt a b = true) : strLt b a = false :=
  charListLt_asymm h

theorem strLt_trans {a b c : String} (h1 : strLt a b = true)
    (h2 : strLt b c = true) : strLt a c = true :=
  charListLt_trans h1 h2

theorem strLt_eq_of_not {a b : String} (h1 : strLt a b = false)
    (h2 : strLt b a = false) : a = b := by
  cases a with
  | mk la =>
    cases b with
    | mk lb => exact congrArg String.mk (charListLt_eq_of_not h1 h2)

/-! Order-theoretic facts about the comparator. -/

theorem lexLess_congr {a b a2 b2 : Condition} (h1 : a.type = a2.type)
    (h2 : b.type = b2.type) : lexicographicLess a b = lexicographicLess a2 b2 := by
  simp [lexicographicLess, h1, h2]

theorem lexLess_of_type_eq {a b : Condition} (h : a.type = b.type) :
    lexicographicLess a b = false := by
  simp only [lexicographicLess, h]
  by_cases hb : b.type = "Ready" <;> simp [hb, strLt_irrefl]

theorem lexLess_to_ready {a b : Condition} (hb : b.type = "Ready") :
    lexicographicLess a b = false := by
  by_cases ha : a.type = "Ready"
  · exact lexLess_of_type_eq (ha.trans hb.symm)
  · simp [lexicographicLess, ha, hb]

theorem lexLess_ready_first {a b : Condition} (ha : a.type = "Ready")
    (hb : b.type ≠ "Ready") : lexicographicLess a b = true := by
  simp [lexicographicLess, ha, hb]

theorem lexLess_asymm {a b : Condition} (h : lexicographicLess a b = true) :
    lexicographicLess b a = false := by
  by_cases ha : a.type = "Ready" <;> by_cases hb : b.type = "Ready"
  · exact lexLess_of_type_eq (hb.trans ha.symm)
  · simp [lexicographicLess, hb, ha]
  · simp [lexicographicLess, ha, hb] at h
  · simp [lexicographicLess, ha, hb] at h ⊢
    exact strLt_asymm h

theorem lexLess_trans {a b c : Condition} (h1 : lexicographicLess a b = true)
    (h2 : lexicographicLess b c = true) : lexicographicLess a c = true := by
  by_cases ha : a.type = "Ready"
  · by_cases hc : c.type = "Ready"
    · rw [lexLess_to_ready hc] at h2
      exact Bool.noConfusion h2
    · exact lexLess_ready_first ha hc
  · by_cases hb : b.type = "Ready"
    · rw [lexLess_to_ready hb] at h1
      exact Bool.noConfusion h1
    · by_cases hc : c.type = "Ready"
      · rw [lexLess_to_ready hc] at h2
        exact Bool.noConfusion h2
      · simp [lexicographicLess, ha, hb, hc] at h1 h2 ⊢
        exact strLt_trans h1 h2

theorem lexLess_total_of_ne {a b : Condition} (h : a.type ≠ b.type) :
    lexicographicLess a b = true ∨ lexicographicLess b a = true := by
  by_cases ha : a.type = "Ready"
  · by_cases hb : b.type = "Ready"
    · exact absurd (ha.trans hb.symm) h
    · exact Or.inl (lexLess_ready_first ha hb)
  · by_cases hb : b.type = "Ready"
    · exact Or.inr (lexLess_ready_first hb ha)
    · cases h1 : strLt a.type b.type with
      | true => exact Or.inl (by simp [lexicographicLess, ha, hb, h1])
      | false =>
        cases h2 : strLt b.type a.type with
        | true => exact Or.inr (by simp [lexicographicLess, ha, hb, h2])
        | false => exact absurd (strLt_eq_of_not h1 h2) h

instance : IsTotal Condition condLe where
  total a b := by
    cases h : lexicographicLess b a with
    | false => exact Or.inl h
    | true => exact Or.inr (lexLess_asymm h)

instance : IsTrans Condition condLe where
  trans a b c hab hbc := by
    unfold condLe at hab hbc ⊢
    cases h : lexicographicLess c a with
    | false => rfl
    | true =>
      exfalso
      by_cases hcb : c.type = b.type
      · rw [lexLess_congr hcb rfl] at h
        rw [hab] at h
        exact Bool.noConfusion h
      · rcases lexLess_total_of_ne hcb with h1 | h1
        · rw [hbc] at h1
          exact Bool.noConfusion h1
        · have h2 := lexLess_trans h1 h
          rw [hab] at h2
          exact Bool.noConfusion h2

/-! Structural lemmas about setFields, upsert, get, sortConditions, set. -/

theorem setFields_type (c : Condition) (s : ConditionStatus) (reason msg : String)
    (now : Nat) : (setFields c s reason msg now).type = c.type := rfl

theorem setFields_status (c : Condition) (s : ConditionStatus) (reason msg : String)
    (now : Nat) : (setFields c s reason msg now).status = s := rfl

theorem setFields_reason (c : Condition) (s : ConditionStatus) (reason msg : String)
    (now : Nat) : (setFields c s reason msg now).reason = reason := rfl

theorem setFields_message (c : Condition) (s : ConditionStatus) (reason msg : String)
    (now : Nat) : (setFields c s reason msg now).message = msg := rfl

theorem setFields_time (c : Condition) (s : ConditionStatus) (reason msg : String)
    (now : Nat) : (setFields c s reason msg now).lastTransitionTime =
      if c.reason ≠ reason then now else c.lastTransitionTime := rfl

theorem setFields_self {c : Condition} {s : ConditionStatus} {reason msg : String}
    {now : Nat} (hs : c.status = s) (hr : c.reason = reason) (hm : c.message = msg) :
    setFields c s reason msg now = c := by
  cases c
  simp_all [setFields]

theorem find?_eq_some_of_unique {α : Type} {p : α → Bool} {l : List α} {a : α}
    (ha : a ∈ l) (hpa : p a = true) (huniq : ∀ b ∈ l, p b = true → b = a) :
    l.find? p = some a := by
  induction l with
  | nil => cases ha
  | cons x xs ih =>
    by_cases hx : p x = true
    · rw [List.find?_cons_of_pos _ hx, huniq x (List.mem_cons_self x xs) hx]
    · rw [List.find?_cons_of_neg _ hx]
      rcases List.mem_cons.mp ha with rfl | hmem
      · exact absurd hpa hx
      · exact ih hmem fun b hb hpb => huniq b (List.mem_cons_of_mem _ hb) hpb

theorem unique_of_typesNodup {conds : List Condition} {b c : Condition}
    (hn : TypesNodup conds) (hb : b ∈ conds) (hc : c ∈ conds)
    (ht : b.type = c.type) : b = c := by
  induction conds with
  | nil => cases hb
  | cons x xs ih =>
    rcases List.pairwise_cons.mp hn with ⟨h1, h2⟩
    rcases List.mem_cons.mp hb with rfl | hb2
    · rcases List.mem_cons.mp hc with rfl | hc2
      · rfl
      · exact absurd ht (h1 c hc2)
    · rcases List.mem_cons.mp hc with rfl | hc2
      · exact absurd ht.symm (h1 b hb2)
      · exact ih h2 hb2 hc2

theorem upsert_of_not_mem {conds : List Condition} {t : String}
    {s : ConditionStatus} {reason msg : String} {now : Nat}
    (h : ∀ c ∈ conds, c.type ≠ t) :
    upsert conds t s reason msg now =
      conds ++ [⟨t, s, reason, msg, now⟩] := by
  induction conds with
  | nil => rfl
  | cons c rest ih =>
    have hc : c.type ≠ t := h c (List.mem_cons_self c rest)
    simp [upsert, hc, ih fun x hx => h x (List.mem_cons_of_mem _ hx)]

theorem upsert_append {pre : List Condition} {c : Condition} {post : List Condition}
    {t : String} {s : ConditionStatus} {reason msg : String} {now : Nat}
    (hpre : ∀ x ∈ pre, x.type ≠ t) (hc : c.type = t) :
    upsert (pre ++ c :: post) t s reason msg now =
      pre ++ setFields c s reason msg now :: post := by
  induction pre with
  | nil => simp [upsert, hc]
  | cons x xs ih =>
    have hx : x.type ≠ t := hpre x (List.mem_cons_self x xs)
    simp only [List.cons_append, upsert, if_neg hx, List.append_eq]
    rw [ih fun y hy => hpre y (List.mem_cons_of_mem _ hy)]

theorem mem_upsert_type {conds : List Condition} {t : String}
    {s : ConditionStatus} {reason msg : String} {now : Nat} {b : Condition}
    (hb : b ∈ upsert conds t s reason msg now) :
    b.type = t ∨ ∃ a ∈ conds, b.type = a.type := by
  induction conds with
  | nil =>
    left
    rcases List.mem_singleton.mp hb with rfl
    rfl
  | cons c rest ih =>
    by_cases hc : c.type = t
    · simp only [upsert, if_pos hc] at hb
      rcases List.mem_cons.mp hb with rfl | hb2
      · exact Or.inl (hc ▸ setFields_type ..)
      · exact Or.inr ⟨b, List.mem_cons_of_mem _ hb2, rfl⟩
    · simp only [upsert, if_neg hc] at hb
      rcases List.mem_cons.mp hb with rfl | hb2
      · exact Or.inr ⟨b, List.mem_cons_self .., rfl⟩
      · rcases ih hb2 with h | ⟨a, ha, h⟩
        · exact Or.inl h
        · exact Or.inr ⟨a, List.mem_cons_of_mem _ ha, h⟩

theorem upsert_mem_of_ne {conds : List Condition} {t : String}
    {s : ConditionStatus} {reason msg : String} {now : Nat} {x : Condition}
    (hx : x ∈ conds) (hne : x.type ≠ t) :
    x ∈ upsert conds t s reason msg now := by
  induction conds with
  | nil => cases hx
  | cons c rest ih =>
    by_cases hc : c.type = t
    · simp only [upsert, if_pos hc]
      rcases List.mem_cons.mp hx with rfl | hx2
      · exact absurd hc hne
      · exact List.mem_cons_of_mem _ hx2
    · simp only [upsert, if_neg hc]
      rcases List.mem_cons.mp hx with rfl | hx2
      · exact List.mem_cons_self ..
      · exact List.mem_cons_of_mem _ (ih hx2)

theorem upsert_type_surj {conds : List Condition} {t : String}
    {s : ConditionStatus} {reason msg : String} {now : Nat} {x : Condition}
    (hx : x ∈ conds) :
    ∃ y ∈ upsert conds t s reason msg now, y.type = x.type := by
  induction conds with
  | nil => cases hx
  | cons c rest ih =>
    by_cases hc : c.type = t
    · simp only [upsert, if_pos hc]
      rcases List.mem_cons.mp hx with rfl | hx2
      · exact ⟨setFields x s reason msg now, List.mem_cons_self .., setFields_type ..⟩
      · exact ⟨x, List.mem_cons_of_mem _ hx2, rfl⟩
    · simp only [upsert, if_neg hc]
      rcases List.mem_cons.mp hx with rfl | hx2
      · exact ⟨x, List.mem_cons_self .., rfl⟩
      · rcases ih hx2 with ⟨y, hy, hyt⟩
        exact ⟨y, List.mem_cons_of_mem _ hy, hyt⟩

theorem upsert_typesNodup {conds : List Condition} {t : String}
    {s : ConditionStatus} {reason msg : String} {now : Nat}
    (h : TypesNodup conds) : TypesNodup (upsert conds t s reason msg now) := by
  induction conds with
  | nil => simp [upsert, TypesNodup]
  | cons c rest ih =>
    rcases List.pairwise_cons.mp h with ⟨h1, h2⟩
    by_cases hc : c.type = t
    · simp only [upsert, if_pos hc]
      exact List.pairwise_cons.mpr ⟨fun b hb => (setFields_type ..).symm ▸ h1 b hb, h2⟩
    · simp only [upsert, if_neg hc]
      refine List.pairwise_cons.mpr ⟨fun b hb => ?_, ih h2⟩
      rcases mem_upsert_type hb with hbt | ⟨a, ha, hbt⟩
      · exact fun hh => hc (hh.trans hbt)
      · exact hbt ▸ h1 a ha

theorem sortConditions_perm (l : List Condition) :
    List.Perm (sortConditions l) l :=
  List.perm_insertionSort condLe l

theorem sortConditions_sorted (l : List Condition) :
    List.Sorted condLe (sortConditions l) :=
  List.sorted_insertionSort condLe l

theorem sortConditions_eq_self {l : List Condition} (h : List.Sorted condLe l) :
    sortConditions l = l :=
  h.insertionSort_eq

theorem mem_sortConditions {l : List Condition} {x : Condition} :
    x ∈ sortConditions l ↔ x ∈ l :=
  (sortConditions_perm l).mem_iff

theorem typesNodup_symmRel : ∀ {a b : Condition}, a.type ≠ b.type → b.type ≠ a.type :=
  fun h => h.symm

theorem sortConditions_typesNodup {l : List Condition} (h : TypesNodup l) :
    TypesNodup (sortConditions l) :=
  (List.Perm.pairwise_iff typesNodup_symmRel (sortConditions_perm l)).mpr h

theorem set_sorted (conds : List Condition) (t : String) (s : ConditionStatus)
    (reason msg : String) (now : Nat) :
    List.Sorted condLe (set conds t s reason msg now) :=
  sortConditions_sorted _

theorem set_typesNodup {conds : List Condition} {t : String} {s : ConditionStatus}
    {reason msg : String} {now : Nat} (h : TypesNodup conds) :
    TypesNodup (set conds t s reason msg now) :=
  sortConditions_typesNodup (upsert_typesNodup h)

theorem get_eq_none_iff {conds : List Condition} {t : String} :
    get conds t = none ↔ ∀ c ∈ conds, c.type ≠ t := by
  unfold get
  rw [List.find?_eq_none]
  simp

theorem get_eq_some_split {conds : List Condition} {t : String} {c : Condition}
    (h : get conds t = some c) :
    c.type = t ∧ ∃ pre post, conds = pre ++ c :: post ∧ ∀ x ∈ pre, x.type ≠ t := by
  unfold get at h
  rw [List.find?_eq_some] at h
  obtain ⟨hc, pre, post, rfl, hpre⟩ := h
  refine ⟨by simpa using hc, pre, post, rfl, fun x hx => ?_⟩
  simpa using hpre x hx

theorem get_set_none {conds : List Condition} {t : String} {s : ConditionStatus}
    {reason msg : String} {now : Nat} (hget : get conds t = none) :
    get (set conds t s reason msg now) t =
      some ⟨t, s, reason, msg, now⟩ := by
  have hall : ∀ x ∈ conds, x.type ≠ t := get_eq_none_iff.mp hget
  unfold set
  rw [upsert_of_not_mem hall]
  apply find?_eq_some_of_unique
  · exact mem_sortConditions.mpr (List.mem_append_right _ (List.mem_singleton_self _))
  · simp
  · intro b hb hpb
    rcases List.mem_append.mp (mem_sortConditions.mp hb) with hb2 | hb2
    · exact absurd (by simpa using hpb) (hall b hb2)
    · exact List.mem_singleton.mp hb2

theorem get_set_some {conds : List Condition} {t : String} {s : ConditionStatus}
    {reason msg : String} {now : Nat} {c : Condition} (hn : TypesNodup conds)
    (hget : get conds t = some c) :
    get (set conds t s reason msg now) t =
      some (setFields c s reason msg now) := by
  obtain ⟨hct, pre, post, rfl, hpre⟩ := get_eq_some_split hget
  have hpost : ∀ x ∈ post, x.type ≠ t := by
    have hsub : List.Sublist (c :: post) (pre ++ c :: post) :=
      List.sublist_append_right pre (c :: post)
    have hcp : List.Pairwise (fun a b : Condition => a.type ≠ b.type) (c :: post) :=
      List.Pairwise.sublist hsub hn
    intro x hx hxt
    exact (List.pairwise_cons.mp hcp).1 x hx (hct.trans hxt.symm)
  unfold set
  rw [upsert_append hpre hct]
  apply find?_eq_some_of_unique
  · exact mem_sortConditions.mpr
      (List.mem_append_right _ (List.mem_cons_self ..))
  · simp [setFields_type, hct]
  · intro b hb hpb
    have hbt : b.type = t := by simpa using hpb
    rcases List.mem_append.mp (mem_sortConditions.mp hb) with hb2 | hb2
    · exact absurd hbt (hpre b hb2)
    · rcases List.mem_cons.mp hb2 with rfl | hb3
      · rfl
      · exact absurd hbt (hpost b hb3)

theorem set_mem_of_ne {conds : List Condition} {t : String} {s : ConditionStatus}
    {reason msg : String} {now : Nat} {x : Condition}
    (hx : x ∈ conds) (hne : x.type ≠ t) :
    x ∈ set conds t s reason msg now :=
  mem_sortConditions.mpr (upsert_mem_of_ne hx hne)

theorem set_type_surj {conds : List Condition} {t : String} {s : ConditionStatus}
    {reason msg : String} {now : Nat} {x : Condition} (hx : x ∈ conds) :
    ∃ y ∈ set conds t s reason msg now, y.type = x.type := by
  rcases @upsert_type_surj conds t s reason msg now x hx with ⟨y, hy, hyt⟩
  exact ⟨y, mem_sortConditions.mpr hy, hyt⟩

/-! Lemmas about the SyncReady scan and about sorted, duplicate-free sets. -/

theorem findFirstFalse_none_iff {conds : List Condition} :
    findFirstFalse conds = none ↔
      ∀ c ∈ conds, c.type ≠ "Ready" → c.status ≠ ConditionStatus.False := by
  induction conds with
  | nil => simp [findFirstFalse]
  | cons c rest ih =>
    simp only [findFirstFalse, List.forall_mem_cons]
    by_cases hc : c.type = "Ready"
    · simp [hc, ih]
    · by_cases hs : c.status = ConditionStatus.False
      · simp only [if_neg hc, if_pos hs]
        constructor
        · intro h
          exact Option.noConfusion h
        · intro h
          exact absurd hs (h.1 hc)
      · simp [hc, hs, ih]

theorem findFirstFalse_append {pre : List Condition} {c : Condition}
    {post : List Condition}
    (hpre : ∀ x ∈ pre, x.type = "Ready" ∨ x.status ≠ ConditionStatus.False)
    (hc : c.type ≠ "Ready") (hcs : c.status = ConditionStatus.False) :
    findFirstFalse (pre ++ c :: post) = some (c.reason, c.message) := by
  induction pre with
  | nil => simp [findFirstFalse, hc, hcs]
  | cons x xs ih =>
    have ihx := ih fun y hy => hpre y (List.mem_cons_of_mem _ hy)
    by_cases hxr : x.type = "Ready"
    · simpa only [List.cons_append, findFirstFalse, if_pos hxr] using ihx
    · have hx : x.status ≠ ConditionStatus.False :=
        (hpre x (List.mem_cons_self ..)).resolve_left hxr
      simpa only [List.cons_append, findFirstFalse, if_neg hxr, if_neg hx] using ihx

theorem sorted_typesNodup_pairwise_lexLess {l : List Condition}
    (hs : List.Sorted condLe l) (hn : TypesNodup l) :
    List.Pairwise (fun a b : Condition => lexicographicLess a b = true) l := by
  have hs2 := List.pairwise_iff_get.mp hs
  have hn2 := List.pairwise_iff_get.mp hn
  refine List.pairwise_iff_get.mpr fun i j hij => ?_
  rcases lexLess_total_of_ne (hn2 i j hij) with h | h
  · exact h
  · have hfalse : lexicographicLess (l.get j) (l.get i) = false := hs2 i j hij
    rw [h] at hfalse
    exact Bool.noConfusion hfalse

theorem sorted_ready_first {l : List Condition} (hs : List.Sorted condLe l)
    (hn : TypesNodup l) :
    ∀ i (hi : i < l.length), 0 < i → (l.get ⟨i, hi⟩).type ≠ "Ready" := by
  intro i hi h0 hr
  have hp2 := List.pairwise_iff_get.mp (sorted_typesNodup_pairwise_lexLess hs hn)
  have h0lt : (0 : Nat) < l.length := lt_of_le_of_lt (Nat.zero_le i) hi
  have hcontra := hp2 ⟨0, h0lt⟩ ⟨i, hi⟩ h0
  rw [lexLess_to_ready hr] at hcontra
  exact Bool.noConfusion hcontra

theorem sorted_nonReady_strict {l : List Condition} (hs : List.Sorted condLe l)
    (hn : TypesNodup l) :
    List.Pairwise (fun a b : Condition => strLt a.type b.type = true)
      (l.filter fun c => !(c.type == "Ready")) := by
  have hp := sorted_typesNodup_pairwise_lexLess hs hn
  have hf := List.Pairwise.filter (fun c : Condition => !(c.type == "Ready")) hp
  refine List.Pairwise.imp_of_mem ?_ hf
  intro a b ha hb hab
  have ha2 : a.type ≠ "Ready" := by simpa using (List.mem_filter.mp ha).2
  have hb2 : b.type ≠ "Ready" := by simpa using (List.mem_filter.mp hb).2
  simpa [lexicographicLess, ha2, hb2] using hab

/-! Invariant preservation along sequences of public calls. -/

theorem applyOp_sorted (conds : List Condition) (op : MarkOp) (now : Nat) :
    List.Sorted condLe (applyOp conds op now) := by
  cases op with
  | markTrue t => exact set_sorted ..
  | markFalse t reason msg => exact set_sorted ..
  | markUnknown t reason msg => exact set_sorted ..
  | syncReady =>
    cases hf : findFirstFalse conds with
    | none =>
      simp only [applyOp, SyncReady, hf]
      exact set_sorted ..
    | some rm =>
      obtain ⟨r, m⟩ := rm
      simp only [applyOp, SyncReady, hf]
      exact set_sorted ..

theorem applyOp_typesNodup {conds : List Condition} (hn : TypesNodup conds)
    (op : MarkOp) (now : Nat) : TypesNodup (applyOp conds op now) := by
  cases op with
  | markTrue t => exact set_typesNodup hn
  | markFalse t reason msg => exact set_typesNodup hn
  | markUnknown t reason msg => exact set_typesNodup hn
  | syncReady =>
    cases hf : findFirstFalse conds with
    | none =>
      simp only [applyOp, SyncReady, hf]
      exact set_typesNodup hn
    | some rm =>
      obtain ⟨r, m⟩ := rm
      simp only [applyOp, SyncReady, hf]
      exact set_typesNodup hn

theorem runFrom_typesNodup {conds : List Condition} (hn : TypesNodup conds)
    (ops : List (MarkOp × Nat)) : TypesNodup (runFrom conds ops) := by
  induction ops generalizing conds with
  | nil => exact hn
  | cons p rest ih =>
    obtain ⟨op, now⟩ := p
    exact ih (applyOp_typesNodup hn op now)

theorem runFrom_sorted {conds : List Condition} (hs : List.Sorted condLe conds)
    (ops : List (MarkOp × Nat)) : List.Sorted condLe (runFrom conds ops) := by
  induction ops generalizing conds with
  | nil => exact hs
  | cons p rest ih =>
    obtain ⟨op, now⟩ := p
    exact ih (applyOp_sorted conds op now)

theorem typesNodup_countP {l : List Condition} (hn : TypesNodup l) (t : String) :
    (l.countP fun c => c.type == t) ≤ 1 := by
  induction l with
  | nil => simp
  | cons c rest ih =>
    rcases List.pairwise_cons.mp hn with ⟨h1, h2⟩
    rw [List.countP_cons]
    by_cases hc : c.type = t
    · have hz : (rest.countP fun x => x.type == t) = 0 := by
        apply List.countP_eq_zero.mpr
        intro a ha hat
        have hat2 : a.type = t := by simpa using hat
        exact h1 a ha (hc.trans hat2.symm)
      rw [hz]
      simp [hc]
    · simpa [hc] using ih h2

/-! Claim theorems. -/

/-- Claim C8: lexicographicLess is a strict total order on conditions with
distinct Types: it is irreflexive and transitive, for two conditions with
distinct Types exactly one direction holds, Ready compares before every
other Type, and two non-Ready Types compare by ascending lexicographic
order of their strings. -/
theorem C8_comparator_strict_total_order :
    (∀ a : Condition, lexicographicLess a a = false)
    ∧ (∀ a b c : Condition, lexicographicLess a b = true →
        lexicographicLess b c = true → lexicographicLess a c = true)
    ∧ (∀ a b : Condition, a.type ≠ b.type →
        (lexicographicLess a b = true ∧ lexicographicLess b a = false)
        ∨ (lexicographicLess a b = false ∧ lexicographicLess b a = true))
    ∧ (∀ a b : Condition, a.type = "Ready" → b.type ≠ "Ready" →
        lexicographicLess a b = true)
    ∧ (∀ a b : Condition, a.type ≠ "Ready" → b.type ≠ "Ready" →
        (lexicographicLess a b = true ↔ strLt a.type b.type = true)) := by
  refine ⟨fun a => lexLess_of_type_eq rfl,
    fun a b c h1 h2 => lexLess_trans h1 h2,
    fun a b h => ?_,
    fun a b ha hb => lexLess_ready_first ha hb,
    fun a b ha hb => by simp [lexicographicLess, ha, hb]⟩
  rcases lexLess_total_of_ne h with h1 | h1
  · exact Or.inl ⟨h1, lexLess_asymm h1⟩
  · exact Or.inr ⟨lexLess_asymm h1, h1⟩

theorem C8_witness :
    lexicographicLess ⟨"Ready", ConditionStatus.True, "", "", 0⟩
      ⟨"API", ConditionStatus.False, "r", "m", 1⟩ = true :=
  C8_comparator_strict_total_order.2.2.2.1
    ⟨"Ready", ConditionStatus.True, "", "", 0⟩
    ⟨"API", ConditionStatus.False, "r", "m", 1⟩ rfl (by decide)

/-- Claim C5: IsTrue returns true exactly when an entry with the requested
Type exists and its Status is True; when no entry with that Type exists it
returns false (absence is not an error: IsTrue is total with no error
channel). -/
theorem C5_isTrue_lookup (conds : List Condition) (t : String)
    (hn : TypesNodup conds) :
    (IsTrue conds t = true ↔
      ∃ c ∈ conds, c.type = t ∧ c.status = ConditionStatus.True)
    ∧ ((∀ c ∈ conds, c.type ≠ t) → IsTrue conds t = false) := by
  refine ⟨⟨?_, ?_⟩, ?_⟩
  · intro h
    cases hget : get conds t with
    | none =>
      unfold IsTrue at h
      rw [hget] at h
      exact Bool.noConfusion h
    | some c =>
      unfold IsTrue at h
      rw [hget] at h
      have hst : c.status = ConditionStatus.True := by simpa using h
      obtain ⟨hct, pre, post, rfl, _⟩ := get_eq_some_split hget
      exact ⟨c, List.mem_append_right _ (List.mem_cons_self ..), hct, hst⟩
  · rintro ⟨c, hc, hct, hst⟩
    have huniq : ∀ b ∈ conds, (b.type == t) = true → b = c := by
      intro b hb hpb
      have hbt : b.type = t := by simpa using hpb
      exact unique_of_typesNodup hn hb hc (hbt.trans hct.symm)
    have hget : get conds t = some c :=
      find?_eq_some_of_unique hc (by simp [hct]) huniq
    unfold IsTrue
    rw [hget]
    simp [hst]
  · intro h
    unfold IsTrue
    rw [get_eq_none_iff.mpr h]

theorem C5_witness :
    IsTrue [⟨"A", ConditionStatus.True, "", "", 0⟩] "A" = true
    ∧ IsTrue [⟨"A", ConditionStatus.True, "", "", 0⟩] "B" = false :=
  ⟨(C5_isTrue_lookup [⟨"A", ConditionStatus.True, "", "", 0⟩] "A" (by decide)).1.mpr
      ⟨⟨"A", ConditionStatus.True, "", "", 0⟩, by simp, rfl, rfl⟩,
   (C5_isTrue_lookup [⟨"A", ConditionStatus.True, "", "", 0⟩] "B" (by decide)).2
      (by decide)⟩

/-- Claim C7: the three Mark helpers are instances of set, set deletes
nothing (every Type present before is still present after, and every
entry of a different Type is kept with all its fields unchanged), and
SyncReady deletes nothing either. -/
theorem C7_no_deletion_frame (conds : List Condition) (t : String)
    (s : ConditionStatus) (reason msg : String) (now : Nat) :
    (MarkTrue conds t now = set conds t ConditionStatus.True "" "" now
      ∧ MarkFalse conds t reason msg now =
          set conds t ConditionStatus.False reason msg now
      ∧ MarkUnknown conds t reason msg now =
          set conds t ConditionStatus.Unknown reason msg now)
    ∧ (∀ c ∈ conds, ∃ c2 ∈ set conds t s reason msg now, c2.type = c.type)
    ∧ (∀ c ∈ conds, c.type ≠ t → c ∈ set conds t s reason msg now)
    ∧ (∀ c ∈ conds, ∃ c2 ∈ SyncReady conds now, c2.type = c.type) := by
  refine ⟨⟨rfl, rfl, rfl⟩, fun c hc => set_type_surj hc,
    fun c hc hne => set_mem_of_ne hc hne, fun c hc => ?_⟩
  cases hf : findFirstFalse conds with
  | none =>
    simp only [SyncReady, hf]
    exact set_type_surj hc
  | some rm =>
    obtain ⟨r, m⟩ := rm
    simp only [SyncReady, hf]
    exact set_type_surj hc

theorem C7_witness :
    (∃ c2 ∈ set [⟨"B", ConditionStatus.True, "", "", 0⟩] "A"
        ConditionStatus.False "r" "m" 5, c2.type = "B")
    ∧ ⟨"B", ConditionStatus.True, "", "", 0⟩ ∈
        set [⟨"B", ConditionStatus.True, "", "", 0⟩] "A"
          ConditionStatus.False "r" "m" 5
    ∧ (∃ c2 ∈ SyncReady [⟨"B", ConditionStatus.True, "", "", 0⟩] 5,
        c2.type = "B") :=
  ⟨(C7_no_deletion_frame [⟨"B", ConditionStatus.True, "", "", 0⟩] "A"
      ConditionStatus.False "r" "m" 5).2.1
      ⟨"B", ConditionStatus.True, "", "", 0⟩ (by simp),
   (C7_no_deletion_frame [⟨"B", ConditionStatus.True, "", "", 0⟩] "A"
      ConditionStatus.False "r" "m" 5).2.2.1
      ⟨"B", ConditionStatus.True, "", "", 0⟩ (by simp) (by decide),
   (C7_no_deletion_frame [⟨"B", ConditionStatus.True, "", "", 0⟩] "A"
      ConditionStatus.False "r" "m" 5).2.2.2
      ⟨"B", ConditionStatus.True, "", "", 0⟩ (by simp)⟩

/-- Claim C2: on a set with unique Types, a Mark call (an instance of set)
on an existing Type refreshes LastTransitionTime to the current time
exactly when the new Reason differs from the stored one (a changed Reason
together with an advancing clock strictly increases it; an unchanged
Reason leaves it unchanged whatever the Status), and a Mark call on an
absent Type stamps the new entry with the current time. -/
theorem C2_transition_time_rule (conds : List Condition) (t : String)
    (s : ConditionStatus) (reason msg : String) (now : Nat)
    (hn : TypesNodup conds) :
    (MarkTrue conds t now = set conds t ConditionStatus.True "" "" now
      ∧ MarkFalse conds t reason msg now =
          set conds t ConditionStatus.False reason msg now
      ∧ MarkUnknown conds t reason msg now =
          set conds t ConditionStatus.Unknown reason msg now)
    ∧ (∀ c, get conds t = some c →
        ∃ c2, get (set conds t s reason msg now) t = some c2
          ∧ c2.lastTransitionTime =
              (if c.reason ≠ reason then now else c.lastTransitionTime)
          ∧ (c.reason ≠ reason → c.lastTransitionTime < now →
              c.lastTransitionTime < c2.lastTransitionTime)
          ∧ (c.reason = reason →
              c2.lastTransitionTime = c.lastTransitionTime))
    ∧ (get conds t = none →
        ∃ c2, get (set conds t s reason msg now) t = some c2
          ∧ c2.lastTransitionTime = now) := by
  refine ⟨⟨rfl, rfl, rfl⟩, fun c hget => ?_, fun hget => ?_⟩
  · refine ⟨setFields c s reason msg now, get_set_some hn hget,
      setFields_time .., ?_, ?_⟩
    · intro hne hlt
      rw [setFields_time, if_pos hne]
      exact hlt
    · intro heq
      rw [setFields_time, if_neg (not_not_intro heq)]
  · exact ⟨⟨t, s, reason, msg, now⟩, get_set_none hget, rfl⟩

theorem C2_witness :
    ∃ c2, get (set [⟨"A", ConditionStatus.True, "r0", "", 3⟩] "A"
        ConditionStatus.False "r1" "m" 5) "A" = some c2
      ∧ c2.lastTransitionTime = (if ("r0" : String) ≠ "r1" then 5 else 3)
      ∧ (("r0" : String) ≠ "r1" → 3 < 5 → 3 < c2.lastTransitionTime)
      ∧ (("r0" : String) = "r1" → c2.lastTransitionTime = 3) :=
  (C2_transition_time_rule [⟨"A", ConditionStatus.True, "r0", "", 3⟩] "A"
      ConditionStatus.False "r1" "m" 5 (by decide)).2.1
    ⟨"A", ConditionStatus.True, "r0", "", 3⟩ (by decide)

/-- Claim C1: on a set with unique Types, SyncReady writes a Ready entry
that is False with Reason and Message copied verbatim from the first
non-Ready entry (in current scan order) whose Status is False, and that
is True with empty Reason and Message when no non-Ready entry is False,
Unknown entries notwithstanding. -/
theorem C1_syncReady_aggregation (conds : List Condition) (now : Nat)
    (hn : TypesNodup conds) :
    (∀ pre c post, conds = pre ++ c :: post →
        (∀ x ∈ pre, x.type = "Ready" ∨ x.status ≠ ConditionStatus.False) →
        c.type ≠ "Ready" → c.status = ConditionStatus.False →
        ∃ rc, get (SyncReady conds now) "Ready" = some rc
          ∧ rc.status = ConditionStatus.False
          ∧ rc.reason = c.reason ∧ rc.message = c.message)
    ∧ ((∀ c ∈ conds, c.type ≠ "Ready" → c.status ≠ ConditionStatus.False) →
        ∃ rc, get (SyncReady conds now) "Ready" = some rc
          ∧ rc.status = ConditionStatus.True
          ∧ rc.reason = "" ∧ rc.message = "") := by
  constructor
  · intro pre c post hsplit hpre hc hcs
    have hf : findFirstFalse conds = some (c.reason, c.message) := by
      rw [hsplit]
      exact findFirstFalse_append hpre hc hcs
    have hsync : SyncReady conds now =
        set conds "Ready" ConditionStatus.False c.reason c.message now := by
      simp only [SyncReady, hf]
    rw [hsync]
    cases hget : get conds "Ready" with
    | none => exact ⟨_, get_set_none hget, rfl, rfl, rfl⟩
    | some c0 =>
      exact ⟨_, get_set_some hn hget, setFields_status ..,
        setFields_reason .., setFields_message ..⟩
  · intro hnone
    have hf : findFirstFalse conds = none := findFirstFalse_none_iff.mpr hnone
    have hsync : SyncReady conds now =
        set conds "Ready" ConditionStatus.True "" "" now := by
      simp only [SyncReady, hf]
    rw [hsync]
    cases hget : get conds "Ready" with
    | none => exact ⟨_, get_set_none hget, rfl, rfl, rfl⟩
    | some c0 =>
      exact ⟨_, get_set_some hn hget, setFields_status ..,
        setFields_reason .., setFields_message ..⟩

theorem C1_witness :
    (∃ rc, get (SyncReady [⟨"API", ConditionStatus.True, "", "", 1⟩,
        ⟨"DB", ConditionStatus.False, "DBDown", "db down", 2⟩] 5) "Ready" =
          some rc
      ∧ rc.status = ConditionStatus.False
      ∧ rc.reason = "DBDown" ∧ rc.message = "db down")
    ∧ (∃ rc, get (SyncReady [⟨"X", ConditionStatus.Unknown, "", "", 0⟩] 5)
          "Ready" = some rc
      ∧ rc.status = ConditionStatus.True
      ∧ rc.reason = "" ∧ rc.message = "") :=
  ⟨(C1_syncReady_aggregation [⟨"API", ConditionStatus.True, "", "", 1⟩,
      ⟨"DB", ConditionStatus.False, "DBDown", "db down", 2⟩] 5 (by decide)).1
      [⟨"API", ConditionStatus.True, "", "", 1⟩]
      ⟨"DB", ConditionStatus.False, "DBDown", "db down", 2⟩ [] rfl
      (by decide) (by decide) (by decide),
   (C1_syncReady_aggregation [⟨"X", ConditionStatus.Unknown, "", "", 0⟩] 5
      (by decide)).2 (by decide)⟩

/-- Claim C3: after any sequence of public calls starting from the empty
set, the written-back set has its Ready entry (when present) at index 0
and all non-Ready entries in strictly ascending byte-wise lexicographic
order of Type. -/
theorem C3_sort_invariant (ops : List (MarkOp × Nat)) :
    (∀ i (hi : i < (runFrom [] ops).length), 0 < i →
        ((runFrom [] ops).get ⟨i, hi⟩).type ≠ "Ready")
    ∧ List.Pairwise (fun a b : Condition => strLt a.type b.type = true)
        ((runFrom [] ops).filter fun c => !(c.type == "Ready")) := by
  have hs : List.Sorted condLe (runFrom [] ops) :=
    runFrom_sorted List.sorted_nil ops
  have hn : TypesNodup (runFrom [] ops) :=
    runFrom_typesNodup List.Pairwise.nil ops
  exact ⟨sorted_ready_first hs hn, sorted_nonReady_strict hs hn⟩

theorem C3_witness :
    ((runFrom [] [(MarkOp.markTrue "B", 1), (MarkOp.markTrue "A", 2),
        (MarkOp.syncReady, 3)]).get ⟨1, by decide⟩).type ≠ "Ready" :=
  (C3_sort_invariant [(MarkOp.markTrue "B", 1), (MarkOp.markTrue "A", 2),
      (MarkOp.syncReady, 3)]).1 1 (by decide) (by decide)

/-- Claim C4: starting from a set with pairwise distinct Types (the empty
set included), every sequence of public calls leaves at most one entry
per Type value. -/
theorem C4_type_uniqueness (conds : List Condition) (ops : List (MarkOp × Nat))
    (hn : TypesNodup conds) (t : String) :
    ((runFrom conds ops).countP fun c => c.type == t) ≤ 1 :=
  typesNodup_countP (runFrom_typesNodup hn ops) t

theorem C4_witness :
    ((runFrom [] [(MarkOp.markTrue "A", 1), (MarkOp.markTrue "A", 2),
        (MarkOp.syncReady, 3)]).countP fun c => c.type == "A") ≤ 1 :=
  C4_type_uniqueness [] [(MarkOp.markTrue "A", 1), (MarkOp.markTrue "A", 2),
    (MarkOp.syncReady, 3)] (by decide) "A"

/-! Machinery for the idempotence claim. -/

theorem upsert_eq_self {conds : List Condition} {t : String}
    {s : ConditionStatus} {reason msg : String} {now : Nat} {c0 : Condition}
    (hget : get conds t = some c0) (hs : c0.status = s) (hr : c0.reason = reason)
    (hm : c0.message = msg) :
    upsert conds t s reason msg now = conds := by
  induction conds with
  | nil => simp [get] at hget
  | cons c rest ih =>
    by_cases hc : c.type = t
    · have h1 : get (c :: rest) t = some c := by
        unfold get
        rw [List.find?_cons_of_pos _ (by simp [hc])]
      rw [h1] at hget
      injection hget with hgc
      subst hgc
      simp [upsert, hc, setFields_self hs hr hm]
    · have h2 : get rest t = some c0 := by
        unfold get at hget ⊢
        rwa [List.find?_cons_of_neg _ (by simp [hc])] at hget
      simp [upsert, hc, ih h2]

theorem set_eq_self {conds : List Condition} {t : String} {s : ConditionStatus}
    {reason msg : String} {now : Nat} {c0 : Condition}
    (hsorted : List.Sorted condLe conds) (hget : get conds t = some c0)
    (hs : c0.status = s) (hr : c0.reason = reason) (hm : c0.message = msg) :
    set conds t s reason msg now = conds := by
  unfold set
  rw [upsert_eq_self hget hs hr hm]
  exact sortConditions_eq_self hsorted

theorem eq_of_perm_of_sorted_nodup : ∀ {l1 l2 : List Condition},
    List.Perm l1 l2 → List.Sorted condLe l1 → List.Sorted condLe l2 →
    TypesNodup l1 → l1 = l2 := by
  intro l1
  induction l1 with
  | nil =>
    intro l2 hp _ _ _
    exact (List.Perm.eq_nil hp.symm).symm
  | cons x xs ih =>
    intro l2 hp hs1 hs2 hn1
    cases l2 with
    | nil => exact List.noConfusion (List.Perm.eq_nil hp)
    | cons y ys =>
      have hxy : x = y := by
        have hxmem : x ∈ y :: ys := hp.mem_iff.mp (List.mem_cons_self ..)
        rcases List.mem_cons.mp hxmem with h | h
        · exact h
        · have hymem : y ∈ x :: xs := hp.mem_iff.mpr (List.mem_cons_self ..)
          rcases List.mem_cons.mp hymem with h2 | h2
          · exact h2.symm
          · have hle1 : lexicographicLess y x = false :=
              List.rel_of_sorted_cons hs1 y h2
            have hle2 : lexicographicLess x y = false :=
              List.rel_of_sorted_cons hs2 x h
            have hteq : x.type = y.type := by
              by_contra hne
              rcases lexLess_total_of_ne hne with hl | hl
              · rw [hl] at hle2
                exact Bool.noConfusion hle2
              · rw [hl] at hle1
                exact Bool.noConfusion hle1
            exact unique_of_typesNodup hn1 (List.mem_cons_self ..)
              (List.mem_cons_of_mem _ h2) hteq
      subst hxy
      have hp2 : List.Perm xs ys := List.Perm.cons_inv hp
      rw [ih hp2 hs1.of_cons hs2.of_cons (List.pairwise_cons.mp hn1).2]

theorem set_ready_cons {conds : List Condition} {s : ConditionStatus}
    {r m : String} {now : Nat}
    (hsorted : List.Sorted condLe conds) (hn : TypesNodup conds) :
    ∃ c0 tail, set conds "Ready" s r m now = c0 :: tail
      ∧ c0.type = "Ready" ∧ c0.status = s ∧ c0.reason = r ∧ c0.message = m
      ∧ findFirstFalse tail = findFirstFalse conds := by
  cases hready : get conds "Ready" with
  | none =>
    have hall : ∀ x ∈ conds, x.type ≠ "Ready" := get_eq_none_iff.mp hready
    have hup : upsert conds "Ready" s r m now =
        conds ++ [⟨"Ready", s, r, m, now⟩] := upsert_of_not_mem hall
    have hperm : List.Perm (set conds "Ready" s r m now)
        ((⟨"Ready", s, r, m, now⟩ : Condition) :: conds) := by
      unfold set
      rw [hup]
      exact (sortConditions_perm _).trans (List.perm_append_singleton ..)
    have hsorted2 : List.Sorted condLe
        ((⟨"Ready", s, r, m, now⟩ : Condition) :: conds) := by
      refine List.sorted_cons.mpr ⟨fun b hb => ?_, hsorted⟩
      exact lexLess_to_ready rfl
    have hnodup2 : TypesNodup (set conds "Ready" s r m now) :=
      set_typesNodup hn
    have heq : set conds "Ready" s r m now =
        (⟨"Ready", s, r, m, now⟩ : Condition) :: conds :=
      eq_of_perm_of_sorted_nodup hperm (set_sorted ..) hsorted2 hnodup2
    exact ⟨⟨"Ready", s, r, m, now⟩, conds, heq, rfl, rfl, rfl, rfl, rfl⟩
  | some c0 =>
    obtain ⟨hct, pre, post, hsplit, hpre⟩ := get_eq_some_split hready
    have hprenil : pre = [] := by
      cases pre with
      | nil => rfl
      | cons p ps =>
        exfalso
        have hplex := (List.pairwise_append.mp
          (hsplit ▸ sorted_typesNodup_pairwise_lexLess hsorted hn)).2.2
        have h1 := hplex p (List.mem_cons_self ..) c0 (List.mem_cons_self ..)
        rw [lexLess_to_ready hct] at h1
        exact Bool.noConfusion h1
    subst hprenil
    have hre : conds = c0 :: post := by simpa using hsplit
    have hsorted2 : List.Sorted condLe (setFields c0 s r m now :: post) := by
      refine List.sorted_cons.mpr ⟨fun b hb => ?_, (hre ▸ hsorted).of_cons⟩
      exact lexLess_to_ready ((setFields_type ..).trans hct)
    have heq : set conds "Ready" s r m now = setFields c0 s r m now :: post := by
      rw [hre]
      unfold set
      rw [show upsert (c0 :: post) "Ready" s r m now =
            setFields c0 s r m now :: post by simp [upsert, hct]]
      exact sortConditions_eq_self hsorted2
    refine ⟨setFields c0 s r m now, post, heq, (setFields_type ..).trans hct,
      setFields_status .., setFields_reason .., setFields_message .., ?_⟩
    rw [hre]
    simp [findFirstFalse, hct]

theorem set_idem {conds : List Condition} {t : String} {s : ConditionStatus}
    {reason msg : String} {n1 n2 : Nat} (hn : TypesNodup conds) :
    set (set conds t s reason msg n1) t s reason msg n2 =
      set conds t s reason msg n1 := by
  have hs1 : List.Sorted condLe (set conds t s reason msg n1) := set_sorted ..
  cases hget : get conds t with
  | some c =>
    exact set_eq_self hs1 (get_set_some hn hget) (setFields_status ..)
      (setFields_reason ..) (setFields_message ..)
  | none =>
    exact set_eq_self hs1 (get_set_none hget) rfl rfl rfl

theorem syncReady_eq_of_some {conds : List Condition} {now : Nat} {r m : String}
    (hf : findFirstFalse conds = some (r, m)) :
    SyncReady conds now = set conds "Ready" ConditionStatus.False r m now := by
  simp only [SyncReady, hf]

theorem syncReady_eq_of_none {conds : List Condition} {now : Nat}
    (hf : findFirstFalse conds = none) :
    SyncReady conds now = set conds "Ready" ConditionStatus.True "" "" now := by
  simp only [SyncReady, hf]

theorem syncReady_idem {conds : List Condition} {n1 n2 : Nat}
    (hsorted : List.Sorted condLe conds) (hn : TypesNodup conds) :
    SyncReady (SyncReady conds n1) n2 = SyncReady conds n1 := by
  cases hf : findFirstFalse conds with
  | some rm =>
    obtain ⟨r, m⟩ := rm
    have hsync : SyncReady conds n1 =
        set conds "Ready" ConditionStatus.False r m n1 := by
      simp only [SyncReady, hf]
    obtain ⟨c0, tail, hshape, hct, hst, hsr, hsm, htail⟩ :=
      @set_ready_cons conds ConditionStatus.False r m n1 hsorted hn
    have hf2 : findFirstFalse (SyncReady conds n1) = some (r, m) := by
      rw [hsync, hshape]
      simp only [findFirstFalse, if_pos hct]
      rw [htail, hf]
    have hget2 : get (SyncReady conds n1) "Ready" = some c0 := by
      rw [hsync, hshape]
      unfold get
      rw [List.find?_cons_of_pos _ (by simp [hct])]
    have hs2 : List.Sorted condLe (SyncReady conds n1) := by
      rw [hsync]
      exact set_sorted ..
    calc SyncReady (SyncReady conds n1) n2
        = set (SyncReady conds n1) "Ready" ConditionStatus.False r m n2 :=
          syncReady_eq_of_some hf2
      _ = SyncReady conds n1 := set_eq_self hs2 hget2 hst hsr hsm
  | none =>
    have hsync : SyncReady conds n1 =
        set conds "Ready" ConditionStatus.True "" "" n1 := by
      simp only [SyncReady, hf]
    obtain ⟨c0, tail, hshape, hct, hst, hsr, hsm, htail⟩ :=
      @set_ready_cons conds ConditionStatus.True "" "" n1 hsorted hn
    have hf2 : findFirstFalse (SyncReady conds n1) = none := by
      rw [hsync, hshape]
      simp only [findFirstFalse, if_pos hct]
      rw [htail, hf]
    have hget2 : get (SyncReady conds n1) "Ready" = some c0 := by
      rw [hsync, hshape]
      unfold get
      rw [List.find?_cons_of_pos _ (by simp [hct])]
    have hs2 : List.Sorted condLe (SyncReady conds n1) := by
      rw [hsync]
      exact set_sorted ..
    calc SyncReady (SyncReady conds n1) n2
        = set (SyncReady conds n1) "Ready" ConditionStatus.True "" "" n2 :=
          syncReady_eq_of_none hf2
      _ = SyncReady conds n1 := set_eq_self hs2 hget2 hst hsr hsm

/-- Claim C9: on an accessor state satisfying the data-model invariants
(sorted, unique Types), immediately repeating a MarkTrue, MarkFalse,
MarkUnknown or SyncReady call with identical arguments leaves the
condition set exactly unchanged, every LastTransitionTime included,
whatever current time the repeated call observes (in particular any time
not earlier than the first call), because the repeated call writes a
Reason equal to the stored one. -/
theorem C9_idempotence (conds : List Condition) (t reason msg : String)
    (n1 n2 : Nat) (hsorted : List.Sorted condLe conds) (hn : TypesNodup conds) :
    MarkTrue (MarkTrue conds t n1) t n2 = MarkTrue conds t n1
    ∧ MarkFalse (MarkFalse conds t reason msg n1) t reason msg n2 =
        MarkFalse conds t reason msg n1
    ∧ MarkUnknown (MarkUnknown conds t reason msg n1) t reason msg n2 =
        MarkUnknown conds t reason msg n1
    ∧ SyncReady (SyncReady conds n1) n2 = SyncReady conds n1 :=
  ⟨set_idem hn, set_idem hn, set_idem hn, syncReady_idem hsorted hn⟩

theorem C9_witness :
    MarkTrue (MarkTrue [⟨"Ready", ConditionStatus.True, "", "", 0⟩,
        ⟨"A", ConditionStatus.False, "r", "m", 1⟩] "A" 5) "A" 7 =
      MarkTrue [⟨"Ready", ConditionStatus.True, "", "", 0⟩,
        ⟨"A", ConditionStatus.False, "r", "m", 1⟩] "A" 5
    ∧ MarkFalse (MarkFalse [⟨"Ready", ConditionStatus.True, "", "", 0⟩,
        ⟨"A", ConditionStatus.False, "r", "m", 1⟩] "A" "r2" "m2" 5)
        "A" "r2" "m2" 7 =
      MarkFalse [⟨"Ready", ConditionStatus.True, "", "", 0⟩,
        ⟨"A", ConditionStatus.False, "r", "m", 1⟩] "A" "r2" "m2" 5
    ∧ MarkUnknown (MarkUnknown [⟨"Ready", ConditionStatus.True, "", "", 0⟩,
        ⟨"A", ConditionStatus.False, "r", "m", 1⟩] "A" "r2" "m2" 5)
        "A" "r2" "m2" 7 =
      MarkUnknown [⟨"Ready", ConditionStatus.True, "", "", 0⟩,
        ⟨"A", ConditionStatus.False, "r", "m", 1⟩] "A" "r2" "m2" 5
    ∧ SyncReady (SyncReady [⟨"Ready", ConditionStatus.True, "", "", 0⟩,
        ⟨"A", ConditionStatus.False, "r", "m", 1⟩] 5) 7 =
      SyncReady [⟨"Ready", ConditionStatus.True, "", "", 0⟩,
        ⟨"A", ConditionStatus.False, "r", "m", 1⟩] 5 :=
  C9_idempotence [⟨"Ready", ConditionStatus.True, "", "", 0⟩,
    ⟨"A", ConditionStatus.False, "r", "m", 1⟩] "A" "r2" "m2" 5 7
    (by decide) (by decide)

/-- Claim C6: each Mark helper, run against the accessor, performs exactly
one GetConditions followed by exactly one SetConditions and nothing else;
the single written value is the fully updated, fully sorted new set, so
the accessor is only ever left holding the old set or the complete new
one, never an intermediate state.  The written list is a fresh value
computed from the read one, mirroring the copy-on-write discipline of the
source. -/
theorem C6_mark_accessor_effects (conds : List Condition) (t reason msg : String)
    (now : Nat) :
    runAcc (MarkTrueProg t now) conds =
      (set conds t ConditionStatus.True "" "" now, (),
        [AccEvent.getConditions conds,
         AccEvent.setConditions (set conds t ConditionStatus.True "" "" now)])
    ∧ runAcc (MarkFalseProg t reason msg now) conds =
      (set conds t ConditionStatus.False reason msg now, (),
        [AccEvent.getConditions conds,
         AccEvent.setConditions (set conds t ConditionStatus.False reason msg now)])
    ∧ runAcc (MarkUnknownProg t reason msg now) conds =
      (set conds t ConditionStatus.Unknown reason msg now, (),
        [AccEvent.getConditions conds,
         AccEvent.setConditions (set conds t ConditionStatus.Unknown reason msg now)])
    ∧ (∀ s : ConditionStatus, List.Sorted condLe (set conds t s reason msg now))
    ∧ ((runAcc (MarkTrueProg t now) conds).2.2.countP isGetEvent = 1
        ∧ (runAcc (MarkTrueProg t now) conds).2.2.countP isSetEvent = 1) :=
  ⟨rfl, rfl, rfl, fun s => set_sorted conds t s reason msg now, rfl, rfl⟩

/-- Claim C10: IsTrue never writes through the accessor: its run leaves the
accessor state unchanged and its call trace is a single GetConditions with
no SetConditions, so two consecutive runs with the same argument and no
intervening mutation return the same boolean. -/
theorem C10_isTrue_read_only (conds : List Condition) (t : String) :
    (runAcc (IsTrueProg t) conds).1 = conds
    ∧ (runAcc (IsTrueProg t) conds).2.2 = [AccEvent.getConditions conds]
    ∧ (runAcc (IsTrueProg t) conds).2.2.countP isSetEvent = 0
    ∧ (runAcc (IsTrueProg t) ((runAcc (IsTrueProg t) conds).1)).2.1 =
        (runAcc (IsTrueProg t) conds).2.1 :=
  ⟨rfl, rfl, rfl, rfl⟩

end Conditions
